import Mathlib

/-!
Verification of `src/components/UserManagement.tsx`.

A shallow embedding of the user-management component: its data model
(`User`, `FormData`, `FormErrors`), its field validator (`validateField`),
its submit / delete handlers (`handleSubmit`, `handleDelete`) and the
derived filtered list (`filteredUsers`), together with theorems settling
the specification claims.

Modelling conventions:
* JavaScript strings are modelled as Lean `String` (sequences of Unicode
  scalar values); `toLowerCase` is modelled by the ASCII `String.toLower`,
  which agrees with JavaScript on all inputs occurring in the claims.
* JavaScript `number` identifiers are modelled by `JNum`: an integer or
  `-Infinity`.  `Math.max()` applied to zero arguments returns
  `-Infinity`, and `-Infinity + 1 = -Infinity`, so the set of identifier
  values reachable from integer inputs is exactly `ℤ ∪ {-Infinity}`, on
  which IEEE arithmetic coincides with `JNum` arithmetic.
* A JavaScript partial record (a key that may be absent) is modelled with
  `Option`: `none` means the key is absent from the object.
-/

set_option autoImplicit false

namespace UserMgmt

/-- A JavaScript number as it occurs in the identifier arithmetic of the
component: either an integer or `-Infinity` (the value of `Math.max()`
on an empty argument list). -/
inductive JNum where
  | negInf : JNum
  | int : Int → JNum
deriving DecidableEq, Repr

/-- Binary `Math.max` on two `JNum`s (`-Infinity` is the identity). -/
def jmax : JNum → JNum → JNum
  | JNum.negInf, y => y
  | x, JNum.negInf => x
  | JNum.int a, JNum.int b => JNum.int (max a b)

/-- Adding `1` to a `JNum`; IEEE gives `-Infinity + 1 = -Infinity`. -/
def jadd1 : JNum → JNum
  | JNum.negInf => JNum.negInf
  | JNum.int a => JNum.int (a + 1)

/-- The numeric order `≤` on `JNum` (`-Infinity` is the bottom). -/
def jle : JNum → JNum → Bool
  | JNum.negInf, _ => true
  | JNum.int _, JNum.negInf => false
  | JNum.int a, JNum.int b => a ≤ b

/-- Variadic `Math.max(...ids)`: fold of binary max with initial value `-Infinity`,
exactly the variadic `Math.max` applied to a (possibly empty) list. -/
def jsMaxList (l : List JNum) : JNum :=
  l.foldl jmax JNum.negInf

/-- The `Address` interface: `{ street: string; city: string }`. -/
structure Address where
  street : String
  city : String
deriving DecidableEq, Repr

/-- The `Company` interface: `{ name: string }`. -/
structure Company where
  name : String
deriving DecidableEq, Repr

/-- The `User` interface.  `name`, `email`, `phone` and `website` are
`Option String` because the create path builds the record by spreading the
partial form draft (`{...formData, ...} as User`), so at runtime these
keys are absent whenever the corresponding draft field was never set.
`id`, `username`, `company` and `address` are always assigned explicitly. -/
structure User where
  id : JNum
  name : Option String
  email : Option String
  phone : Option String
  username : String
  website : Option String
  company : Company
  address : Address
deriving DecidableEq, Repr

/-- The `FormData` type: a partial, flattened projection of a user record.
Each field is `none` when the key is absent from the draft object.  The
nested `company`/`address` objects that an edit seed also copies into the
draft are omitted: every use of the draft overwrites them explicitly, so
they are dead data. -/
structure FormData where
  id : Option JNum := none
  name : Option String := none
  email : Option String := none
  phone : Option String := none
  username : Option String := none
  website : Option String := none
  companyName : Option String := none
  street : Option String := none
  city : Option String := none
deriving DecidableEq, Repr

/-- The `FormErrors` map: one optional message per form field; `none`
means the key is absent (the field was never validated). -/
structure FormErrors where
  name : Option String := none
  email : Option String := none
  phone : Option String := none
  street : Option String := none
  city : Option String := none
  companyName : Option String := none
  website : Option String := none
deriving DecidableEq, Repr

/-- The list `Object.values(formErrors)` in field-declaration order. -/
def FormErrors.values (e : FormErrors) : List (Option String) :=
  [e.name, e.email, e.phone, e.street, e.city, e.companyName, e.website]

/-- The guard `Object.values(formErrors).some((error) => error)`: some present entry
is a truthy (non-empty) string. -/
def hasBlockingError (e : FormErrors) : Bool :=
  e.values.any fun v =>
    match v with
    | some s => s ≠ ""
    | none => false

/-- JavaScript `\s` (whitespace) character class. -/
def isJsWhitespace (c : Char) : Bool :=
  c = ' ' || c = '\t' || c = '\n' || c = '\r' || c = '\x0b' || c = '\x0c' ||
  c = '\u00A0' || c = '\u1680' ||
  (0x2000 ≤ c.val && c.val ≤ 0x200A) ||
  c = '\u2028' || c = '\u2029' || c = '\u202F' || c = '\u205F' ||
  c = '\u3000' || c = '\uFEFF'

/-- The character class `[^\s@]` of the email regex. -/
def isEmailChar (c : Char) : Bool :=
  !isJsWhitespace c && c ≠ '@'

/-- Match of `/^[^\s@]+@[^\s@]+\.[^\s@]+$/`.  Since none of the three
classes matches `@`, a matching string decomposes uniquely as
`a ++ '@' :: rest` at its first `@`, with `a` nonempty and `@`-free, and
`rest` must consist of `[^\s@]` characters and contain a `.` that is
neither its first nor its last character (the split `B+ '.' C+`).  The
positions `1 .. rest.length - 2` are exactly `(rest.drop 1).dropLast`. -/
def emailMatch (s : String) : Bool :=
  match s.data.dropWhile (fun c => c ≠ '@') with
  | c :: rest =>
      c = '@' && !(s.data.takeWhile (fun c => c ≠ '@')).isEmpty &&
        (s.data.takeWhile (fun c => c ≠ '@')).all isEmailChar &&
        rest.all isEmailChar && ((rest.drop 1).dropLast.contains '.')
  | [] => false

/-- The character class `[\d\s-]` of the phone regex. -/
def isPhoneChar (c : Char) : Bool :=
  c.isDigit || isJsWhitespace c || c = '-'

/-- Consumption of the optional `\+?` of the phone regex
`/^\+?[\d\s-]{10,}$/`: a leading `+` is taken by the optional group (the
class `[\d\s-]` cannot absorb it), any other string is left whole. -/
def phoneCore (l : List Char) : List Char :=
  if l.head? = some '+' then l.tail else l

/-- Continuation of the phone-regex match: the characters that must be
matched by `[\d\s-]{10,}` after the optional `+`. -/
def phoneMatch (s : String) : Bool :=
  10 ≤ (phoneCore s.data).length && (phoneCore s.data).all isPhoneChar

/-- The character class `[\da-z\.-]` of the website regex. -/
def isWebsiteHostChar (c : Char) : Bool :=
  c.isDigit || ('a' ≤ c && c ≤ 'z') || c = '.' || c = '-'

/-- The character class `[a-z\.]` of the website regex. -/
def isWebsiteTldChar (c : Char) : Bool :=
  ('a' ≤ c && c ≤ 'z') || c = '.'

/-- The character class `[\/\w \.-]` of the website regex (`\w` is
`[A-Za-z0-9_]`). -/
def isWebsiteTailChar (c : Char) : Bool :=
  c = '/' || c.isAlphanum || c = '_' || c = ' ' || c = '.' || c = '-'

/-- Match of the body `([\da-z\.-]+)\.([a-z\.]{2,6})([\/\w \.-]*)*\/?$`
after the optional scheme: there is a decomposition `A ++ '.' :: B ++ T`
with `A` a nonempty host-class string, `B` a tld-class string of length
2–6 and `T` a tail-class string (the trailing `\/?` is absorbed by the
tail class, which contains `/`, and `(X*)*` denotes the same language as
`X*`).  The match is decided by trying every position of the literal dot
and every tld length. -/
def websiteBodyMatch (b : List Char) : Bool :=
  (List.range b.length).any fun p =>
    1 ≤ p && (b.take p).all isWebsiteHostChar && b.get? p = some '.' &&
      ((List.range 5).any fun k0 =>
        let k := k0 + 2
        let rest := b.drop (p + 1)
        k ≤ rest.length && (rest.take k).all isWebsiteTldChar &&
          (rest.drop k).all isWebsiteTailChar)

/-- Match of `/^(https?:\/\/)?([\da-z\.-]+)\.([a-z\.]{2,6})([\/\w \.-]*)*\/?$/`:
the optional scheme group either consumes a literal `http://` or
`https://` prefix or is skipped. -/
def websiteMatch (s : String) : Bool :=
  let l := s.data
  websiteBodyMatch l ||
    (("http://".data.isPrefixOf l) && websiteBodyMatch (l.drop 7)) ||
    (("https://".data.isPrefixOf l) && websiteBodyMatch (l.drop 8))

/-- Model of `name.charAt(0).toUpperCase() + name.slice(1)` (ASCII). -/
def capitalizeFirst (s : String) : String :=
  match s.data with
  | [] => ""
  | c :: rest => String.mk (c.toUpper :: rest)

/-- The field validator `validateField`: given a field name and its new string value, the
error message computed by the `switch` — `""` when the field is valid or
the name is not one of the validated fields. -/
def validateField (name value : String) : String :=
  if name = "name" then
    if value.length < 3 then "Name must be at least 3 characters long" else ""
  else if name = "email" then
    if emailMatch value then "" else "Invalid email format"
  else if name = "phone" then
    if phoneMatch value then "" else "Invalid phone number"
  else if name = "street" || name = "city" then
    if value = "" then capitalizeFirst name ++ " is required" else ""
  else if name = "company.name" then
    if value ≠ "" && value.length < 3 then
      "Company name must be at least 3 characters long"
    else ""
  else if name = "website" then
    if value ≠ "" && !websiteMatch value then "Invalid website URL" else ""
  else ""

/-- The create/edit form mode (`formMode` is `Option Mode`). -/
inductive Mode where
  | create : Mode
  | edit : Mode
deriving DecidableEq, Repr

/-- The component state relevant to the claims.  (`loading` and
`searchTerm` are omitted: the former only gates rendering, the latter is
passed to `filteredUsers` explicitly.) -/
structure AppState where
  users : List User
  formMode : Option Mode
  currentUser : Option User
  formData : FormData
  formErrors : FormErrors
  deleteConfirmation : Option JNum
deriving DecidableEq, Repr

/-- The field names rendered as form inputs; `handleInputChange` is only
ever invoked with one of these as `e.target.name`. -/
def fieldNames : List String :=
  ["name", "email", "phone", "street", "city", "company.name", "website"]

/-- Draft update `setFormData((prev) => ({ ...prev, [name]: value }))`, restricted to
the rendered field names (no other key is ever written). -/
def setFD (fd : FormData) (name value : String) : FormData :=
  if name = "name" then { fd with name := some value }
  else if name = "email" then { fd with email := some value }
  else if name = "phone" then { fd with phone := some value }
  else if name = "street" then { fd with street := some value }
  else if name = "city" then { fd with city := some value }
  else if name = "company.name" then { fd with companyName := some value }
  else if name = "website" then { fd with website := some value }
  else fd

/-- Error-map update `setFormErrors((prev) => ({ ...prev, [name]: error }))`, restricted to
the rendered field names. -/
def setFE (e : FormErrors) (name msg : String) : FormErrors :=
  if name = "name" then { e with name := some msg }
  else if name = "email" then { e with email := some msg }
  else if name = "phone" then { e with phone := some msg }
  else if name = "street" then { e with street := some msg }
  else if name = "city" then { e with city := some msg }
  else if name = "company.name" then { e with companyName := some msg }
  else if name = "website" then { e with website := some msg }
  else e

/-- The change handler `handleInputChange`: store the new value in the draft and revalidate
exactly that field. -/
def handleInputChange (name value : String) (s : AppState) : AppState :=
  { s with
    formData := setFD s.formData name value
    formErrors := setFE s.formErrors name (validateField name value) }

/-- JavaScript `x || d` for a possibly-absent string `x`: the default is
taken when the key is absent or its value is the (falsy) empty string. -/
def jsOrElse (v : Option String) (d : String) : String :=
  match v with
  | some s => if s = "" then d else s
  | none => d

/-- Object spread for one key: `{...base, ...over}` keeps the overriding
value exactly when the key is present in the overriding object. -/
def mergeField (base over : Option String) : Option String :=
  match over with
  | some v => some v
  | none => base

/-- Model of `toLowerCase` (ASCII): lowercase each character. -/
def jsToLower (s : String) : String :=
  String.mk (s.data.map Char.toLower)

/-- Model of `value.replace(/\s+/g, "-")`: each maximal run of whitespace becomes
a single hyphen. -/
def hyphenateWs : List Char → List Char
  | [] => []
  | c :: rest =>
      if isJsWhitespace c then
        '-' :: hyphenateWs (rest.dropWhile isJsWhitespace)
      else
        c :: hyphenateWs rest
termination_by l => l.length
decreasing_by
  · simp only [List.length_cons]
    exact Nat.lt_succ_of_le (List.dropWhile_sublist _).length_le
  · simp only [List.length_cons]
    exact Nat.lt_succ_self _

/-- The `username` synthesized on create:
``USER-${formData.name?.toLowerCase().replace(/\s+/g, "-")}`` — template
interpolation of an absent name prints the string `undefined`. -/
def makeUsername (name : Option String) : String :=
  "USER-" ++
    match name with
    | some n => String.mk (hyphenateWs (jsToLower n).data)
    | none => "undefined"

/-- The record synthesized by the create branch of `handleSubmit`:
`{...formData, id: Math.max(...users.map(u => u.id)) + 1, username: ...,
company: { name: formData["company.name"] || "" },
address: { street: formData.street || "", city: formData.city || "" }}`. -/
def createdUser (fd : FormData) (users : List User) : User :=
  { id := jadd1 (jsMaxList (users.map User.id))
    name := fd.name
    email := fd.email
    phone := fd.phone
    username := makeUsername fd.name
    website := fd.website
    company := { name := jsOrElse fd.companyName "" }
    address := { street := jsOrElse fd.street "", city := jsOrElse fd.city "" } }

/-- The edit-branch merge of the draft over one matched record:
`{...user, ...formData, company: {...user.company, name:
formData["company.name"] || user.company.name}, address: {...user.address,
street: formData.street || user.address.street, city: formData.city ||
user.address.city}}`. -/
def mergeUser (u : User) (fd : FormData) : User :=
  { id := fd.id.getD u.id
    name := mergeField u.name fd.name
    email := mergeField u.email fd.email
    phone := mergeField u.phone fd.phone
    username := fd.username.getD u.username
    website := mergeField u.website fd.website
    company := { name := jsOrElse fd.companyName u.company.name }
    address := { street := jsOrElse fd.street u.address.street
                 city := jsOrElse fd.city u.address.city } }

/-- The record set produced by a non-rejected submit: append the
synthesized record in create mode, merge the draft over the matched
record in edit mode (no-op when `currentUser` is null), unchanged
otherwise. -/
def submitUsers (s : AppState) : List User :=
  match s.formMode with
  | some Mode.create => s.users ++ [createdUser s.formData s.users]
  | some Mode.edit =>
      match s.currentUser with
      | some cu =>
          s.users.map fun u => if u.id = cu.id then mergeUser u s.formData else u
      | none => s.users
  | none => s.users

/-- The submit handler `handleSubmit`: rejected (state unchanged) when some stored error is
non-empty; otherwise commit according to the mode and close the session
(`formMode`, `currentUser` and `formData` are reset; `formErrors` is
not). -/
def handleSubmit (s : AppState) : AppState :=
  if hasBlockingError s.formErrors then s
  else
    { s with
      users := submitUsers s
      formMode := none
      currentUser := none
      formData := {} }

/-- The delete handler `handleDelete`: remove every record whose id equals the given one and
reset the confirmation target. -/
def handleDelete (id : JNum) (s : AppState) : AppState :=
  { s with
    users := s.users.filter fun u => u.id ≠ id
    deleteConfirmation := none }

/-- Clicking Delete in the confirmation modal: `handleDelete` applied to
the pending identifier (no-op when no confirmation is pending). -/
def confirmDelete (s : AppState) : AppState :=
  match s.deleteConfirmation with
  | some i => handleDelete i s
  | none => s

/-- Clicking Cancel in the confirmation modal. -/
def cancelDelete (s : AppState) : AppState :=
  { s with deleteConfirmation := none }

/-- The Create User button: open a create session with a cleared draft
and cleared errors (`currentUser` is not touched). -/
def doOpenCreate (s : AppState) : AppState :=
  { s with formMode := some Mode.create, formData := {}, formErrors := {} }

/-- The flattened draft seeded from a record on edit:
`{...user, "company.name": user.company.name, street: user.address.street,
city: user.address.city}`. -/
def seedFormData (u : User) : FormData :=
  { id := some u.id
    name := u.name
    email := u.email
    phone := u.phone
    username := some u.username
    website := u.website
    companyName := some u.company.name
    street := some u.address.street
    city := some u.address.city }

/-- The per-row edit button: open an edit session seeded from the row's
record, with cleared errors. -/
def doOpenEdit (u : User) (s : AppState) : AppState :=
  { s with
    formMode := some Mode.edit
    currentUser := some u
    formData := seedFormData u
    formErrors := {} }

/-- The form's Cancel button: discard the draft without touching the
record set (`formErrors` is not cleared). -/
def closeForm (s : AppState) : AppState :=
  { s with formMode := none, currentUser := none, formData := {} }

/-- Model of `hay.includes(needle)`: the needle occurs as a contiguous
substring of the haystack. -/
def jsIncludes (hay needle : List Char) : Bool :=
  match hay with
  | [] => needle.isEmpty
  | c :: t => needle.isPrefixOf (c :: t) || jsIncludes t needle

/-- The derived filtered list
`users.filter(u => u.name.toLowerCase().includes(searchTerm.toLowerCase()))`.
Evaluating `u.name.toLowerCase()` on a record whose `name` key is absent
throws a `TypeError` and aborts the render, modelled by `none`; otherwise
the result is the order-preserving filter by case-insensitive substring
match. -/
def filteredUsers (users : List User) (searchTerm : String) : Option (List User) :=
  if users.all (fun u => u.name.isSome) then
    some (users.filter fun u =>
      jsIncludes (jsToLower (u.name.getD "")).data (jsToLower searchTerm).data)
  else
    none

/-- The component state right after a successful initial fetch returning
`us` (or after a failed fetch, with `us = []`). -/
def initState (us : List User) : AppState :=
  { users := us
    formMode := none
    currentUser := none
    formData := {}
    formErrors := {}
    deleteConfirmation := none }

/-- Sample record constructor used by the concrete example states. -/
def mkUser (i : JNum) (nm st ct : String) : User :=
  { id := i
    name := some nm
    email := some "a@b.co"
    phone := some "1234567890"
    username := "u"
    website := none
    company := { name := "ACME" }
    address := { street := st, city := ct } }

/-- A create session open over records with identifiers {1, 3, 7}. -/
def ex137State : AppState :=
  doOpenCreate (initState
    [mkUser (JNum.int 1) "A" "s" "c",
     mkUser (JNum.int 3) "B" "s" "c",
     mkUser (JNum.int 7) "C" "s" "c"])

/-- One user interaction on the component state.  Guards record which
controls are actually rendered: form inputs and the submit button exist
only while a session is open, inputs carry one of the seven rendered
field names, the edit/delete row buttons refer to a listed record, and
the confirmation modal is rendered only for a truthy (non-null, non-zero)
pending identifier. -/
inductive Step : AppState → AppState → Prop where
  | openCreate (s : AppState) : Step s (doOpenCreate s)
  | openEdit (s : AppState) (u : User) (hu : u ∈ s.users) : Step s (doOpenEdit u s)
  | input (s : AppState) (name value : String) (hopen : s.formMode ≠ none)
      (hname : name ∈ fieldNames) : Step s (handleInputChange name value s)
  | submit (s : AppState) (hopen : s.formMode ≠ none) : Step s (handleSubmit s)
  | cancelForm (s : AppState) : Step s (closeForm s)
  | requestDelete (s : AppState) (u : User) (hu : u ∈ s.users) :
      Step s { s with deleteConfirmation := some u.id }
  | confirmDel (s : AppState) (i : JNum) (hp : s.deleteConfirmation = some i)
      (hnz : i ≠ JNum.int 0) : Step s (confirmDelete s)
  | cancelDel (s : AppState) : Step s (cancelDelete s)

/-- States reachable from an initial fetch result (a failed fetch leaves
the empty record set, covered by `us = []`). -/
inductive Reachable : AppState → Prop where
  | init (us : List User) : Reachable (initState us)
  | step {s s' : AppState} : Reachable s → Step s s' → Reachable s'

/-- The reachable state exhibiting the failure of C2 as stated: start
from the empty record set (a failed fetch), open a create session, submit
it untouched (the error map is empty, so the guard passes), then open a
second create session. -/
def cexState : AppState :=
  doOpenCreate (handleSubmit (doOpenCreate (initState [])))

/-- A create session with a stored non-empty error (a too-short name). -/
def exBlockedState : AppState :=
  { initState [mkUser (JNum.int 1) "A" "s" "c"] with
    formMode := some Mode.create
    formErrors := { name := some "Name must be at least 3 characters long" } }

/-- A loaded record with all fields present. -/
def sampleUser : User :=
  mkUser (JNum.int 1) "Leanne Graham" "Kulas Light" "Gwenborough"

/-- A create session opened over `[sampleUser]` in which no field is ever
edited: the draft and the error map are both empty. -/
def untouchedCreate : AppState := doOpenCreate (initState [sampleUser])

/-- The record being edited in the C6 witness. -/
def exEditUser : User := mkUser (JNum.int 5) "Edit Me" "Old St" "Oldtown"

/-- An edit session over `exEditUser` whose draft street entry was
cleared to the empty string. -/
def exEditState : AppState :=
  { doOpenEdit exEditUser
      (initState [exEditUser, mkUser (JNum.int 2) "Other" "Other St" "OT"]) with
    formData := { seedFormData exEditUser with street := some "" } }

/-- A record set with identifiers {1, 5, 9} and a pending confirmation
for identifier 5. -/
def exDelState : AppState :=
  { initState [mkUser (JNum.int 1) "A" "s" "c", mkUser (JNum.int 5) "B" "s" "c",
      mkUser (JNum.int 9) "C" "s" "c"] with
    deleteConfirmation := some (JNum.int 5) }

/-- The record set of the search example: names Jane, Anna, Bob. -/
def exSearchUsers : List User :=
  [mkUser (JNum.int 1) "Jane" "s" "c", mkUser (JNum.int 2) "Anna" "s" "c",
   mkUser (JNum.int 3) "Bob" "s" "c"]

/-! Basic facts about the extended-integer maximum used for identifier
assignment. -/

theorem jle_refl (x : JNum) : jle x x = true := by
  cases x <;> simp [jle]

theorem jle_trans {x y z : JNum} (h1 : jle x y = true) (h2 : jle y z = true) :
    jle x z = true := by
  cases x <;> cases y <;> cases z <;> simp_all [jle]
  omega

theorem jle_jmax_left (x y : JNum) : jle x (jmax x y) = true := by
  cases x <;> cases y <;> simp [jle, jmax]

theorem jle_jmax_right (x y : JNum) : jle y (jmax x y) = true := by
  cases x <;> cases y <;> simp [jle, jmax]

theorem jmax_eq_or (x y : JNum) : jmax x y = x ∨ jmax x y = y := by
  cases x with
  | negInf => cases y <;> simp [jmax]
  | int a =>
      cases y with
      | negInf => simp [jmax]
      | int b =>
          simp only [jmax, JNum.int.injEq]
          exact max_choice a b

theorem foldl_jmax_init_le : ∀ (l : List JNum) (a : JNum), jle a (l.foldl jmax a) = true
  | [], a => jle_refl a
  | h :: t, a => jle_trans (jle_jmax_left a h) (foldl_jmax_init_le t (jmax a h))

theorem foldl_jmax_mem_le : ∀ (l : List JNum) (a x : JNum), x ∈ l → jle x (l.foldl jmax a) = true
  | [], _, _, hx => absurd hx (List.not_mem_nil _)
  | h :: t, a, x, hx => by
      rcases List.mem_cons.mp hx with rfl | hx'
      · exact jle_trans (jle_jmax_right a x) (foldl_jmax_init_le t (jmax a x))
      · exact foldl_jmax_mem_le t (jmax a h) x hx'

theorem foldl_jmax_mem_or : ∀ (l : List JNum) (a : JNum),
    l.foldl jmax a = a ∨ l.foldl jmax a ∈ l
  | [], a => Or.inl rfl
  | h :: t, a => by
      rcases foldl_jmax_mem_or t (jmax a h) with h0 | h0
      · rcases jmax_eq_or a h with h1 | h1
        · exact Or.inl (by rw [List.foldl_cons, h0, h1])
        · exact Or.inr (by rw [List.foldl_cons, h0, h1]; exact List.mem_cons_self _ _)
      · exact Or.inr (List.mem_cons_of_mem _ h0)

theorem jsMaxList_mem (l : List JNum) (h : l ≠ []) : jsMaxList l ∈ l := by
  rcases foldl_jmax_mem_or l JNum.negInf with h0 | h0
  · cases l with
    | nil => exact absurd rfl h
    | cons c t =>
        have hj : jsMaxList (c :: t) = JNum.negInf := h0
        have hc := foldl_jmax_mem_le (c :: t) JNum.negInf c (List.mem_cons_self c t)
        rw [h0] at hc
        cases c with
        | negInf => rw [hj]; exact List.mem_cons_self _ _
        | int a => exact absurd hc (by simp [jle])
  · exact h0

theorem jsMaxList_fresh (l : List JNum) (hfin : JNum.negInf ∉ l) :
    jadd1 (jsMaxList l) ∉ l := by
  intro hmem
  cases hm : jsMaxList l with
  | negInf =>
      rw [hm] at hmem
      exact hfin hmem
  | int m =>
      have hle := foldl_jmax_mem_le l JNum.negInf _ hmem
      rw [show l.foldl jmax JNum.negInf = jsMaxList l from rfl, hm] at hle
      simp [jadd1, jle] at hle

/-- C1: for every record set and every valid create-session submit, the
identifier assigned to the newly created record equals the maximum of the
identifiers of the records already in the set, plus 1 (the witness below
instantiates this at the identifier set {1,3,7}, where the new identifier
is 8). -/
theorem createAssignsMaxPlusOne (s : AppState)
    (hm : s.formMode = some Mode.create)
    (hok : hasBlockingError s.formErrors = false)
    (hne : s.users ≠ []) :
    ∃ m : JNum, m ∈ s.users.map User.id ∧
      (∀ i ∈ s.users.map User.id, jle i m = true) ∧
      (handleSubmit s).users.map User.id = s.users.map User.id ++ [jadd1 m] := by
  refine ⟨jsMaxList (s.users.map User.id),
    jsMaxList_mem _ (by simpa using hne),
    fun i hi => foldl_jmax_mem_le _ _ i hi, ?_⟩
  unfold handleSubmit
  rw [hok]
  simp only [Bool.false_eq_true, if_false, submitUsers, hm, createdUser, List.map_append,
    List.map_cons, List.map_nil]

/-- Witness for C1: with existing identifiers {1,3,7}, the created record
gets identifier 8. -/
theorem createAssignsMaxPlusOne_witness :
    (handleSubmit ex137State).users.map User.id =
      [JNum.int 1, JNum.int 3, JNum.int 7, JNum.int 8] := by
  obtain ⟨m, hmem, hmax, happ⟩ := createAssignsMaxPlusOne ex137State rfl rfl (by decide)
  have h7 : m = JNum.int 7 := by
    have h1 := hmax (JNum.int 7) (by decide)
    simp only [ex137State, doOpenCreate, initState, mkUser, List.map_cons, List.map_nil,
      List.mem_cons, List.not_mem_nil, or_false] at hmem
    rcases hmem with rfl | rfl | rfl
    · exact absurd h1 (by decide)
    · exact absurd h1 (by decide)
    · rfl
  rw [happ, h7]
  decide

/-! The user-interaction step relation and reachable states, used by the
uniqueness-invariant claim. -/

theorem setFD_id (fd : FormData) (name value : String) :
    (setFD fd name value).id = fd.id := by
  unfold setFD
  repeat' split
  all_goals rfl

/-- In every reachable state with an open edit session, the draft's `id`
key is the edited record's identifier (the edit seed sets it and no
rendered input can overwrite it). -/
theorem reachable_edit_id {s : AppState} (hr : Reachable s) :
    ∀ cu : User, s.formMode = some Mode.edit → s.currentUser = some cu →
      s.formData.id = some cu.id := by
  induction hr with
  | init us => intro cu hm; simp [initState] at hm
  | step hr' hst ih =>
      rename_i s1 s2
      cases hst with
      | openCreate => intro cu hm; simp [doOpenCreate] at hm
      | openEdit u hu =>
          intro cu hm hcu
          simp only [doOpenEdit] at hcu ⊢
          cases hcu
          rfl
      | input name value hopen hname =>
          intro cu hm hcu
          simp only [handleInputChange] at hm hcu ⊢
          rw [setFD_id]
          exact ih cu hm hcu
      | submit hopen =>
          intro cu hm hcu
          by_cases hb : hasBlockingError s1.formErrors
          · rw [show handleSubmit s1 = s1 by simp [handleSubmit, hb]] at hm hcu ⊢
            exact ih cu hm hcu
          · rw [show (handleSubmit s1).formMode = none by
              simp [handleSubmit, hb]] at hm
            cases hm
      | cancelForm => intro cu hm; simp [closeForm] at hm
      | requestDelete u hu =>
          intro cu hm hcu
          exact ih cu hm hcu
      | confirmDel i hp hnz =>
          intro cu hm hcu
          unfold confirmDelete at hm hcu ⊢
          rw [hp] at hm hcu ⊢
          exact ih cu hm hcu
      | cancelDel =>
          intro cu hm hcu
          exact ih cu hm hcu

theorem merge_map_id (users : List User) (fd : FormData) (cid : JNum)
    (hid : fd.id = some cid) :
    (users.map fun u => if u.id = cid then mergeUser u fd else u).map User.id =
      users.map User.id := by
  rw [List.map_map]
  apply List.map_congr_left
  intro u hu
  by_cases he : u.id = cid
  · simp only [Function.comp_apply, if_pos he, mergeUser, hid, Option.getD_some]
    exact he.symm
  · simp [Function.comp_apply, if_neg he]

/-- C2 (amended): uniqueness of identifiers is preserved by every user
interaction from every reachable state whose record set has no
`-Infinity` identifier.  (As stated the claim is false: see the
counterexample, where a create commit on the empty record set assigns
`-Infinity` and a second create commit duplicates it.) -/
theorem uniqueIds_preserved (s s' : AppState) (hr : Reachable s) (hst : Step s s')
    (hnd : (s.users.map User.id).Nodup)
    (hfin : JNum.negInf ∉ s.users.map User.id) :
    (s'.users.map User.id).Nodup := by
  cases hst with
  | openCreate => exact hnd
  | openEdit u hu => exact hnd
  | input name value hopen hname => exact hnd
  | submit hopen =>
      by_cases hb : hasBlockingError s.formErrors
      · rw [show handleSubmit s = s by simp [handleSubmit, hb]]
        exact hnd
      · have husers : (handleSubmit s).users = submitUsers s := by
          simp [handleSubmit, hb]
        rw [husers]
        unfold submitUsers
        cases hm : s.formMode with
        | none => exact hnd
        | some m =>
            cases m with
            | create =>
                simp only [List.map_append, List.map_cons, List.map_nil]
                rw [List.nodup_append]
                refine ⟨hnd, List.nodup_singleton _, ?_⟩
                intro a ha hb2
                simp only [List.mem_singleton] at hb2
                subst hb2
                exact jsMaxList_fresh _ hfin ha
            | edit =>
                cases hcu : s.currentUser with
                | none => exact hnd
                | some cu =>
                    rw [merge_map_id s.users s.formData cu.id
                      (reachable_edit_id hr cu hm hcu)]
                    exact hnd
  | cancelForm => exact hnd
  | requestDelete u hu => exact hnd
  | confirmDel i hp hnz =>
      unfold confirmDelete
      rw [hp]
      exact ((List.filter_sublist _).map User.id).nodup hnd
  | cancelDel => exact hnd

/-- Witness for the amended C2: a create commit over identifiers {1,3,7}
preserves uniqueness. -/
theorem uniqueIds_preserved_witness :
    ((handleSubmit ex137State).users.map User.id).Nodup :=
  uniqueIds_preserved ex137State (handleSubmit ex137State)
    (Reachable.step (Reachable.init _) (Step.openCreate _))
    (Step.submit _ (by decide)) (by decide) (by decide)

/-- Counterexample to C2 as stated: `cexState` is reachable, its record
set has pairwise-distinct identifiers, a create session is open and its
submit passes the guard — yet the committed record set violates the
uniqueness invariant (both records get identifier `-Infinity`, since
`Math.max()` of no arguments is `-Infinity` and `-Infinity + 1` is
`-Infinity`). -/
theorem uniqueIds_cex :
    Reachable cexState ∧
    (cexState.users.map User.id).Nodup ∧
    cexState.formMode = some Mode.create ∧
    hasBlockingError cexState.formErrors = false ∧
    ¬ ((handleSubmit cexState).users.map User.id).Nodup := by
  refine ⟨?_, by decide, rfl, rfl, by decide⟩
  have h0 : Reachable (initState []) := Reachable.init []
  have h1 : Reachable (doOpenCreate (initState [])) :=
    Reachable.step h0 (Step.openCreate _)
  have h2 : Reachable (handleSubmit (doOpenCreate (initState []))) :=
    Reachable.step h1 (Step.submit _ (by decide))
  exact Reachable.step h2 (Step.openCreate _)

/-- C4: for every open create or edit session, a submit is rejected with
the state (session and record set) unchanged exactly when the error map
holds a non-empty entry; otherwise the submit commits according to the
mode and closes the session. -/
theorem submitGuard (s : AppState) (m : Mode) (hm : s.formMode = some m) :
    (hasBlockingError s.formErrors = true → handleSubmit s = s) ∧
    (hasBlockingError s.formErrors = false →
      (handleSubmit s).formMode = none ∧
      (handleSubmit s).currentUser = none ∧
      (handleSubmit s).formData = ({} : FormData) ∧
      (m = Mode.create →
        (handleSubmit s).users = s.users ++ [createdUser s.formData s.users]) ∧
      (m = Mode.edit → ∀ cu : User, s.currentUser = some cu →
        (handleSubmit s).users =
          s.users.map fun u => if u.id = cu.id then mergeUser u s.formData else u)) := by
  constructor
  · intro h
    simp [handleSubmit, h]
  · intro h
    refine ⟨by simp [handleSubmit, h], by simp [handleSubmit, h],
      by simp [handleSubmit, h], ?_, ?_⟩
    · rintro rfl
      simp [handleSubmit, h, submitUsers, hm]
    · rintro rfl cu hcu
      simp [handleSubmit, h, submitUsers, hm, hcu]

/-- Witness for C4: a submit against a stored error leaves the state
unchanged. -/
theorem submitGuard_witness : handleSubmit exBlockedState = exBlockedState :=
  (submitGuard exBlockedState Mode.create rfl).1 rfl

/-- C5: submit-time validation consults only the entries already present
in the error map, so a create session in which no field was ever edited
(empty error map) is not rejected, and a record with absent name, email
and phone keys and empty street and city is appended — even though the
field validator would reject those required fields had it been consulted
(last two conjuncts). -/
theorem untouchedCreateCommits :
    untouchedCreate.formData = ({} : FormData) ∧
    hasBlockingError untouchedCreate.formErrors = false ∧
    (handleSubmit untouchedCreate).users =
      [sampleUser, createdUser {} [sampleUser]] ∧
    (createdUser {} [sampleUser]).name = none ∧
    (createdUser {} [sampleUser]).email = none ∧
    (createdUser {} [sampleUser]).phone = none ∧
    (createdUser {} [sampleUser]).address.street = "" ∧
    (createdUser {} [sampleUser]).address.city = "" ∧
    validateField "name" "" ≠ "" ∧
    validateField "street" "" ≠ "" := by
  refine ⟨rfl, rfl, rfl, rfl, rfl, rfl, rfl, rfl, by decide, by decide⟩

/-- C10: on a valid create-session submit with the draft keys
`company.name`, `street`, `city` and `website` all absent, the committed
record's company name, street and city default to the empty string while
its website key stays absent. -/
theorem createDefaults (s : AppState)
    (hm : s.formMode = some Mode.create)
    (hok : hasBlockingError s.formErrors = false)
    (hcn : s.formData.companyName = none)
    (hst : s.formData.street = none)
    (hct : s.formData.city = none)
    (hwb : s.formData.website = none) :
    (handleSubmit s).users = s.users ++ [createdUser s.formData s.users] ∧
    (createdUser s.formData s.users).company.name = "" ∧
    (createdUser s.formData s.users).address.street = "" ∧
    (createdUser s.formData s.users).address.city = "" ∧
    (createdUser s.formData s.users).website = none := by
  refine ⟨by simp [handleSubmit, hok, submitUsers, hm], ?_, ?_, ?_, ?_⟩ <;>
    simp [createdUser, jsOrElse, hcn, hst, hct, hwb]

/-- Witness for C10 at the untouched create session. -/
theorem createDefaults_witness :
    (createdUser untouchedCreate.formData untouchedCreate.users).website = none ∧
    (createdUser untouchedCreate.formData untouchedCreate.users).company.name = "" :=
  ⟨(createDefaults untouchedCreate rfl rfl rfl rfl rfl rfl).2.2.2.2,
   (createDefaults untouchedCreate rfl rfl rfl rfl rfl rfl).2.1⟩

/-- C6: on a valid edit-session submit, the draft is merged over exactly
the record whose identifier matches the session's record: empty (or
absent) draft entries for street, city and company name preserve the
record's prior values, non-empty entries overwrite them, and every record
with a different identifier is kept unchanged. -/
theorem editMergesDraft (s : AppState) (cu : User)
    (hm : s.formMode = some Mode.edit)
    (hcu : s.currentUser = some cu)
    (hok : hasBlockingError s.formErrors = false) :
    (handleSubmit s).users =
      (s.users.map fun u => if u.id = cu.id then mergeUser u s.formData else u) ∧
    (∀ u : User, (s.formData.street = none ∨ s.formData.street = some "") →
      (mergeUser u s.formData).address.street = u.address.street) ∧
    (∀ (u : User) (v : String), s.formData.street = some v → v ≠ "" →
      (mergeUser u s.formData).address.street = v) ∧
    (∀ u : User, (s.formData.city = none ∨ s.formData.city = some "") →
      (mergeUser u s.formData).address.city = u.address.city) ∧
    (∀ (u : User) (v : String), s.formData.city = some v → v ≠ "" →
      (mergeUser u s.formData).address.city = v) ∧
    (∀ u : User, (s.formData.companyName = none ∨ s.formData.companyName = some "") →
      (mergeUser u s.formData).company.name = u.company.name) ∧
    (∀ (u : User) (v : String), s.formData.companyName = some v → v ≠ "" →
      (mergeUser u s.formData).company.name = v) ∧
    (∀ u ∈ s.users, u.id ≠ cu.id → u ∈ (handleSubmit s).users) := by
  have husers : (handleSubmit s).users =
      s.users.map fun u => if u.id = cu.id then mergeUser u s.formData else u := by
    simp [handleSubmit, hok, submitUsers, hm, hcu]
  refine ⟨husers, ?_, ?_, ?_, ?_, ?_, ?_, ?_⟩
  · rintro u (h | h) <;> simp [mergeUser, jsOrElse, h]
  · intro u v hv hne
    simp [mergeUser, jsOrElse, hv, hne]
  · rintro u (h | h) <;> simp [mergeUser, jsOrElse, h]
  · intro u v hv hne
    simp [mergeUser, jsOrElse, hv, hne]
  · rintro u (h | h) <;> simp [mergeUser, jsOrElse, h]
  · intro u v hv hne
    simp [mergeUser, jsOrElse, hv, hne]
  · intro u hu hne
    rw [husers]
    exact List.mem_map.mpr ⟨u, hu, by simp [hne]⟩

/-- Witness for C6: an empty draft street preserves the prior street. -/
theorem editMergesDraft_witness :
    (mergeUser exEditUser exEditState.formData).address.street = "Old St" :=
  ((editMergesDraft exEditState exEditUser rfl rfl rfl).2.1 exEditUser
    (Or.inr rfl)).trans rfl

theorem filter_ne_length (l : List User) (i : JNum)
    (hnd : (l.map User.id).Nodup) (hmem : i ∈ l.map User.id) :
    (l.filter fun u => u.id ≠ i).length + 1 = l.length := by
  induction l with
  | nil => simp at hmem
  | cons u t ih =>
      simp only [List.map_cons, List.nodup_cons] at hnd
      obtain ⟨hnin, hndt⟩ := hnd
      rcases List.mem_cons.mp hmem with h | h
      · have hcond : (decide (u.id ≠ i)) = false := by simp [h]
        have hall : t.filter (fun u => u.id ≠ i) = t := by
          refine List.filter_eq_self.mpr fun v hv => ?_
          have hvne : v.id ≠ i := fun heq => hnin (List.mem_map.mpr ⟨v, hv, heq.trans h⟩)
          simp [hvne]
        rw [List.filter_cons, hcond]
        simp only [Bool.false_eq_true, if_false, hall, List.length_cons]
      · have hne : u.id ≠ i := fun e => hnin (by rw [e]; exact h)
        have hcond : (decide (u.id ≠ i)) = true := by simp [hne]
        rw [List.filter_cons, hcond]
        simp only [if_true, List.length_cons]
        rw [ih hndt h]

/-- C7: for a pending confirmation of an identifier present in a
duplicate-free record set, confirming removes exactly the record with
that identifier (every other record is kept, in its original relative
order, and the length drops by one) and returns the confirmor to idle;
cancelling leaves the record set untouched. -/
theorem confirmDeleteRemoves (s : AppState) (i : JNum)
    (hp : s.deleteConfirmation = some i)
    (hnd : (s.users.map User.id).Nodup)
    (hmem : i ∈ s.users.map User.id) :
    (confirmDelete s).users = (s.users.filter fun u => u.id ≠ i) ∧
    (confirmDelete s).deleteConfirmation = none ∧
    (∀ u ∈ s.users, u.id ≠ i → u ∈ (confirmDelete s).users) ∧
    (∀ u ∈ (confirmDelete s).users, u ∈ s.users ∧ u.id ≠ i) ∧
    (confirmDelete s).users.length + 1 = s.users.length ∧
    (confirmDelete s).users.Sublist s.users ∧
    (cancelDelete s).users = s.users ∧
    (cancelDelete s).deleteConfirmation = none := by
  have hu : (confirmDelete s).users = s.users.filter fun u => u.id ≠ i := by
    unfold confirmDelete
    rw [hp]
    rfl
  refine ⟨hu, ?_, ?_, ?_, ?_, ?_, rfl, rfl⟩
  · unfold confirmDelete
    rw [hp]
    rfl
  · intro u hu2 hne
    rw [hu]
    exact List.mem_filter.mpr ⟨hu2, by simp [hne]⟩
  · intro u hu2
    rw [hu] at hu2
    have hmf := List.mem_filter.mp hu2
    exact ⟨hmf.1, by simpa using hmf.2⟩
  · rw [hu]
    exact filter_ne_length s.users i hnd hmem
  · rw [hu]
    exact List.filter_sublist _

/-- Witness for C7: confirming deletion of identifier 5 removes exactly
the record with identifier 5. -/
theorem confirmDeleteRemoves_witness :
    (confirmDelete exDelState).users =
      [mkUser (JNum.int 1) "A" "s" "c", mkUser (JNum.int 9) "C" "s" "c"] :=
  ((confirmDeleteRemoves exDelState (JNum.int 5) rfl (by decide) (by decide)).1).trans
    (by decide)

theorem phoneMatch_iff (v : String) :
    phoneMatch v = true ↔
      ∃ core : List Char, (v.data = core ∨ v.data = '+' :: core) ∧
        10 ≤ core.length ∧ core.all isPhoneChar = true := by
  cases hd : v.data with
  | nil =>
      constructor
      · intro h
        rw [phoneMatch, hd] at h
        simp [phoneCore] at h
      · rintro ⟨core, hc | hc, hlen, hall⟩
        · rw [← hc] at hlen
          simp at hlen
        · exact absurd hc (by simp)
  | cons c t =>
      by_cases hc : c = '+'
      · subst hc
        have hpc : phoneCore v.data = t := by
          rw [hd]
          simp [phoneCore]
        constructor
        · intro h
          rw [phoneMatch, hpc] at h
          simp only [Bool.and_eq_true, decide_eq_true_eq] at h
          exact ⟨t, Or.inr rfl, h.1, h.2⟩
        · rintro ⟨core, hco | hco, hlen, hall⟩
          · have hplus : isPhoneChar '+' = true := by
              refine List.all_eq_true.mp hall '+' ?_
              rw [← hco]
              exact List.mem_cons_self _ _
            exact absurd hplus (by decide)
          · injection hco with h1 h2
            subst h2
            rw [phoneMatch, hpc]
            simp only [Bool.and_eq_true, decide_eq_true_eq]
            exact ⟨hlen, hall⟩
      · have hpc : phoneCore v.data = v.data := by
          rw [hd]
          simp [phoneCore, hc]
        constructor
        · intro h
          rw [phoneMatch, hpc, hd] at h
          simp only [Bool.and_eq_true, decide_eq_true_eq] at h
          exact ⟨c :: t, Or.inl rfl, h.1, h.2⟩
        · rintro ⟨core, hco | hco, hlen, hall⟩
          · subst hco
            rw [phoneMatch, hpc, hd]
            simp only [Bool.and_eq_true, decide_eq_true_eq]
            exact ⟨hlen, hall⟩
          · injection hco with h1 h2
            exact absurd h1 hc

/-- Counterexample to C3 as stated: the string of ten hyphens contains no
digit at all, yet the phone validator reports no error, because the regex
`/^\+?[\d\s-]{10,}$/` counts separator characters towards its minimum of
ten and requires no digit. -/
theorem phoneValidator_cex :
    validateField "phone" "----------" = "" ∧
    ("----------".data.filter Char.isDigit).length = 0 :=
  ⟨rfl, rfl⟩

/-- C3 (amended): the phone validator reports no error exactly when the
value consists of an optional leading `+` followed by at least ten
characters, each of which is a digit, a whitespace character or a hyphen
(ten or more characters of the class, not ten or more digits). -/
theorem phoneValidatorAmended (v : String) :
    validateField "phone" v = "" ↔
      ∃ core : List Char, (v.data = core ∨ v.data = '+' :: core) ∧
        10 ≤ core.length ∧ core.all isPhoneChar = true := by
  have hv : validateField "phone" v =
      if phoneMatch v then "" else "Invalid phone number" := rfl
  rw [hv]
  by_cases h : phoneMatch v
  · rw [if_pos h]
    exact ⟨fun _ => (phoneMatch_iff v).mp h, fun _ => rfl⟩
  · rw [if_neg h]
    constructor
    · intro habs
      exact absurd habs (by decide)
    · intro hex
      exact absurd ((phoneMatch_iff v).mpr hex) h

theorem jsIncludes_iff_infix (hay needle : List Char) :
    jsIncludes hay needle = true ↔ needle <:+: hay := by
  induction hay with
  | nil =>
      simp only [jsIncludes, List.isEmpty_iff, List.infix_nil]
  | cons c t ih =>
      simp only [jsIncludes, Bool.or_eq_true, List.isPrefixOf_iff_prefix,
        List.infix_cons_iff]
      exact or_congr Iff.rfl ih

/-- C8: for every record set whose records carry a display name and every
search term, the list view shows exactly the records whose lowercased
display name contains the lowercased search term as a substring, as an
order-preserving sublist of the record set; searching "an" against names
Jane, Anna, Bob yields Jane then Anna. -/
theorem filteredUsersSpec :
    (∀ (users : List User) (term : String),
      (∀ u ∈ users, u.name.isSome = true) →
      ∃ shown : List User, filteredUsers users term = some shown ∧
        shown.Sublist users ∧
        ∀ u ∈ users, (u ∈ shown ↔
          (jsToLower term).data <:+: (jsToLower (u.name.getD "")).data)) ∧
    (filteredUsers exSearchUsers "an").map (List.map fun u => u.name.getD "") =
      some ["Jane", "Anna"] := by
  constructor
  · intro users term h
    refine ⟨users.filter fun u =>
      jsIncludes (jsToLower (u.name.getD "")).data (jsToLower term).data, ?_, ?_, ?_⟩
    · unfold filteredUsers
      rw [if_pos (List.all_eq_true.mpr h)]
    · exact List.filter_sublist _
    · intro u hu
      rw [List.mem_filter]
      simp only [hu, true_and]
      exact jsIncludes_iff_infix _ _
  · rfl

/-- Witness for C8 at the Jane/Anna/Bob record set with term "an". -/
theorem filteredUsersSpec_witness :
    ∃ shown : List User, filteredUsers exSearchUsers "an" = some shown ∧
      shown.Sublist exSearchUsers ∧
      ∀ u ∈ exSearchUsers, (u ∈ shown ↔
        (jsToLower "an").data <:+: (jsToLower (u.name.getD "")).data) :=
  filteredUsersSpec.1 exSearchUsers "an" (by decide)

theorem dotSplitAux : ∀ (m : List Char), '.' ∈ m.dropLast →
    ∃ p q : List Char, q ≠ [] ∧ m = p ++ '.' :: q := by
  intro m
  induction m with
  | nil => simp
  | cons c t ih =>
      intro h
      cases t with
      | nil => simp at h
      | cons d t' =>
          rw [List.dropLast_cons₂] at h
          rcases List.mem_cons.mp h with hc | hmem
          · exact ⟨[], d :: t', List.cons_ne_nil _ _, by rw [← hc]; rfl⟩
          · obtain ⟨p, q, hq, hpq⟩ := ih hmem
            exact ⟨c :: p, q, hq, by rw [List.cons_append, ← hpq]⟩

theorem interiorDotSplit (r : List Char)
    (h : ((r.drop 1).dropLast).contains '.' = true) :
    ∃ ys zs : List Char, ys ≠ [] ∧ zs ≠ [] ∧ r = ys ++ '.' :: zs := by
  cases r with
  | nil => simp at h
  | cons c0 m =>
      have hmem : '.' ∈ m.dropLast := by simpa using h
      obtain ⟨p, q, hq, hpq⟩ := dotSplitAux m hmem
      refine ⟨c0 :: p, q, List.cons_ne_nil _ _, hq, ?_⟩
      rw [List.cons_append, ← hpq]

theorem emailMatch_shape (s : String) (h : emailMatch s = true) :
    ∃ xs ys zs : List Char, xs ≠ [] ∧ ys ≠ [] ∧ zs ≠ [] ∧
      s.data = xs ++ '@' :: (ys ++ '.' :: zs) := by
  unfold emailMatch at h
  cases hdw : s.data.dropWhile (fun c => c ≠ '@') with
  | nil =>
      rw [hdw] at h
      simp at h
  | cons c rest =>
      rw [hdw] at h
      simp only [Bool.and_eq_true, decide_eq_true_eq] at h
      obtain ⟨⟨⟨⟨hc, hne⟩, ha⟩, hr⟩, hdot⟩ := h
      subst hc
      obtain ⟨ys, zs, hys, hzs, hrest⟩ := interiorDotSplit rest hdot
      refine ⟨s.data.takeWhile (fun c => c ≠ '@'), ys, zs, ?_, hys, hzs, ?_⟩
      · intro he
        rw [he] at hne
        simp at hne
      · conv_lhs => rw [← List.takeWhile_append_dropWhile
          (p := fun c => c ≠ '@') (l := s.data)]
        rw [hdw, hrest]

/-- C9: every string that does not decompose as `x@y.z` with `x`, `y`,
`z` nonempty is rejected by the email validator, and `a@b.co` passes
with no error. -/
theorem emailValidatorSpec :
    (∀ s : String,
      (¬ ∃ xs ys zs : List Char, xs ≠ [] ∧ ys ≠ [] ∧ zs ≠ [] ∧
        s.data = xs ++ '@' :: (ys ++ '.' :: zs)) →
      validateField "email" s = "Invalid email format") ∧
    validateField "email" "a@b.co" = "" := by
  constructor
  · intro s hshape
    have hm : emailMatch s = false := by
      cases he : emailMatch s
      · rfl
      · exact absurd (emailMatch_shape s he) hshape
    have hv : validateField "email" s =
        if emailMatch s then "" else "Invalid email format" := rfl
    rw [hv, hm]
    rfl
  · rfl

/-- Witness for C9: `"abc"` has no `@`-decomposition, so the validator
rejects it. -/
theorem emailValidatorSpec_witness :
    validateField "email" "abc" = "Invalid email format" :=
  emailValidatorSpec.1 "abc" fun h => by
    obtain ⟨xs, ys, zs, _, _, _, he⟩ := h
    have hm : '@' ∈ "abc".data := by
      rw [he]
      exact List.mem_append_right _ (List.mem_cons_self _ _)
    exact absurd hm (by decide)

end UserMgmt
